import Mathlib

/-!
Verification of the La Ruleta de la Pobla (ZK Russian Roulette) client and
contract-facing layer.

The development shallowly embeds the TypeScript sources:
* the contract data model and the generated client bindings
  (zk-mafia-frontend/src/games/zk-mafia/bindings.ts),
* the service wrapper ZkMafiaService (getGame, whoIsAlive,
  computeBulletCommitment, generateZkProof, cargarRevolver),
* the roulette UI handlers (handleDisparar, handleBotShot,
  getInitialSessionId),
* the dice-duel / number-guess funding-handshake UI
  (createRandomSessionId, parsePoints, the auto-parse effect and
  handleImportTransaction),
* the multi-sig auth-entry splice helper injectSignedAuthEntry
  (zk-mafia-frontend/src/utils/authEntryUtils.ts).

Bytes are Nat with explicit truncation `% 256`; 32-bit machine integers are
Nat with explicit `% 2 ^ 32`; JavaScript BigInt is Int; a fallible operation
returns Option or Except.  SHA-256 itself is the Web Crypto / host primitive
and is kept abstract: definitions that hash are parametrised by a digest
function `List Nat → List Nat`.
-/

namespace Ruleta

/-- Phase constants from zkMafiaService.ts, matching the contract. -/
def PHASE_WAITING : Nat := 0

/-- Phase constant: the game is running. -/
def PHASE_PLAYING : Nat := 1

/-- Phase constant: the game has finished. -/
def PHASE_FINISHED : Nat := 2

/-- A registered player, from the `Jugador` interface of bindings.ts. -/
structure Jugador where
  address : String
  is_alive : Bool
  points : Int
deriving DecidableEq, Repr, Inhabited

/-- Full on-chain game state, from the `PartidaRuleta` interface of
bindings.ts.  Note that `bullet_position` is an ordinary plaintext field of
this record, alongside the `bullet_commitment` digest. -/
structure PartidaRuleta where
  bullet_commitment : List Nat
  bullet_position : Nat
  current_chamber : Nat
  current_turn : Nat
  eliminated : List String
  hub_player1 : String
  hub_player2 : String
  phase : Nat
  players : List Jugador
  session_id : Nat
  shots_fired : Nat
  winner : Option String
deriving DecidableEq, Repr, Inhabited

/-- Outcome of simulating a contract call: the typed contract `Result` is
either ok, or a specific contract error code (the `Errors` table of
bindings.ts), or the RPC/simulation layer throws. -/
inductive SimOutcome (α : Type) where
  | ok (value : α)
  | err (code : Nat)
  | exn
deriving DecidableEq, Repr

/-- The `Errors` table of bindings.ts: contract error codes to messages. -/
def errorsTable (code : Nat) : Option String :=
  match code with
  | 1 => some "GameNotFound"
  | 2 => some "NotPlayer"
  | 3 => some "WrongPhase"
  | 4 => some "NotYourTurn"
  | 5 => some "GameAlreadyEnded"
  | 6 => some "LobbyFull"
  | 7 => some "AlreadyJoined"
  | 8 => some "PlayerEliminated"
  | 9 => some "InvalidProof"
  | 10 => some "InvalidChamber"
  | 11 => some "NotEnoughPlayers"
  | 12 => some "AlreadyStarted"
  | _ => none

/-- ZkMafiaService.getGame: simulates `get_game` and returns the state on
ok; a contract error returns null; a thrown exception is caught and also
returns null. -/
def getGame (outcome : SimOutcome PartidaRuleta) : Option PartidaRuleta :=
  match outcome with
  | .ok g => some g
  | .err _ => none
  | .exn => none

/-- ZkMafiaService.whoIsAlive: simulates `who_is_alive` and returns the
alive list on ok; a contract error returns the empty list; a thrown
exception is caught and also returns the empty list. -/
def whoIsAlive (outcome : SimOutcome (List String)) : List String :=
  match outcome with
  | .ok l => l
  | .err _ => []
  | .exn => []

/-- Whether a simulation outcome is a success. -/
def SimOutcome.isOk {α : Type} : SimOutcome α → Bool
  | .ok _ => true
  | _ => false

/-!
## Session-id generation (createRandomSessionId, getInitialSessionId)

createRandomSessionId (dice-duel / number-guess frontends): on the crypto
branch it draws 32-bit values until one is non-zero; on the Math.random
fallback it computes `(Math.floor(Math.random() * 0xffffffff) >>> 0) || 1`.
getInitialSessionId (roulette frontend) with no `session` URL parameter
draws one 32-bit value and applies `|| 1`.

The stream of random draws is an explicit argument; each draw is stored
through a Uint32Array, hence truncated `% 2 ^ 32`.
-/

/-- The `while (value === 0)` loop of createRandomSessionId over an explicit
stream of draws: the first non-zero 32-bit value, if any draw is non-zero. -/
def firstNonZeroU32 : List Nat → Option Nat
  | [] => none
  | d :: rest =>
      let value := d % 2 ^ 32
      if value = 0 then firstNonZeroU32 rest else some value

/-- createRandomSessionId, crypto.getRandomValues branch. -/
def createRandomSessionIdCrypto (draws : List Nat) : Option Nat :=
  firstNonZeroU32 draws

/-- createRandomSessionId, Math.random fallback branch:
`(Math.floor(Math.random() * 0xffffffff) >>> 0) || 1`, where `r` is the
value of `Math.floor(Math.random() * 0xffffffff)`. -/
def createRandomSessionIdFallback (r : Nat) : Nat :=
  let shifted := r % 2 ^ 32
  if shifted = 0 then 1 else shifted

/-- getInitialSessionId, URL-less fallback: `buf[0] || 1` where `d` is the
raw draw stored into the Uint32Array. -/
def getInitialSessionIdFallback (d : Nat) : Nat :=
  let v := d % 2 ^ 32
  if v = 0 then 1 else v

/-!
## ZK proof stub (ZkMafiaService.generateZkProof)

Fills a 32-byte array from crypto.getRandomValues and, if every byte is
zero, sets the first byte to 1.  The 32 random draws are an explicit
argument, each stored into a Uint8Array, hence truncated `% 256`.
-/

/-- ZkMafiaService.generateZkProof over an explicit stream of 32 random
byte draws. -/
def generateZkProof (draws : List Nat) : List Nat :=
  let proof := draws.map (fun d => d % 256)
  if proof.all (fun b => b == 0) then proof.set 0 1 else proof

/-!
## Wager parsing (parsePoints)

parsePoints (dice-duel / number-guess frontends) strips every character
that is not a digit or a dot, rejects an empty or lone-dot remainder,
splits on the dot, pads/truncates the fraction to 7 digits, and feeds the
concatenation to BigInt inside a try/catch whose catch returns null.
-/

/-- Number of decimal places of a points amount (POINTS_DECIMALS). -/
def POINTS_DECIMALS : Nat := 7

/-- The characters kept by the `replace(/[^\d.]/g, ...)` cleaning step. -/
def isPointsChar (c : Char) : Bool := c.isDigit || c = '.'

/-- JavaScript String.prototype.split on the dot character: the list of
maximal dot-free runs, with empty runs kept. -/
def splitOnDot : List Char → List (List Char)
  | [] => [[]]
  | c :: rest =>
      if c = '.' then [] :: splitOnDot rest
      else
        match splitOnDot rest with
        | [] => [[c]]
        | p :: ps => (c :: p) :: ps

/-- Numeric value of a decimal digit string (value of the empty string is
0, matching BigInt applied to an empty string). -/
def digitsToNat (l : List Char) : Nat :=
  l.foldl (fun a c => a * 10 + (c.toNat - 48)) 0

/-- JavaScript BigInt on a string of the shape produced by parsePoints: it
succeeds exactly when every character is a decimal digit (the empty string
yields 0), and throws otherwise. -/
def bigIntOfDigitString (l : List Char) : Option Int :=
  if l.all Char.isDigit then some (Int.ofNat (digitsToNat l)) else none

/-- The cleaned character list of an input string. -/
def cleanedOf (s : String) : List Char := s.data.filter isPointsChar

/-- The whole part extracted by parsePoints (first split component). -/
def wholeOf (s : String) : List Char := (splitOnDot (cleanedOf s)).getD 0 []

/-- The fraction part extracted by parsePoints (second split component,
defaulting to empty). -/
def fractionOf (s : String) : List Char := (splitOnDot (cleanedOf s)).getD 1 []

/-- parsePoints from DiceDuelGame.tsx / the number-guess frontend. -/
def parsePoints (s : String) : Option Int :=
  let cleaned := cleanedOf s
  if cleaned = [] ∨ cleaned = ['.'] then none
  else
    let whole := (splitOnDot cleaned).getD 0 []
    let fraction := (splitOnDot cleaned).getD 1 []
    let paddedFraction :=
      (fraction ++ List.replicate (POINTS_DECIMALS - fraction.length) '0').take POINTS_DECIMALS
    match bigIntOfDigitString (whole ++ paddedFraction) with
    | some n => some n
    | none => none

/-- Specification-side value: the parsed decimal scaled to 7 decimal
places, fractional digits beyond the 7th truncated. -/
def decimalScaled (whole fraction : List Char) : Nat :=
  digitsToNat whole * 10 ^ POINTS_DECIMALS +
    digitsToNat (fraction.take POINTS_DECIMALS) *
      10 ^ (POINTS_DECIMALS - (fraction.take POINTS_DECIMALS).length)

/-!
## Commitment helper (ZkMafiaService.computeBulletCommitment)

Builds a 33-byte Uint8Array, copies the salt at offset 0, stores the
position at index 32 (a Uint8Array store truncates to a byte), and digests
the preimage with SHA-256 (the Web Crypto primitive, kept abstract).
-/

/-- JavaScript TypedArray.prototype.set at offset 0, for a source that fits
in the target (the only use here): the source overwrites the target's
prefix. -/
def typedArraySet (target src : List Nat) : List Nat :=
  src ++ target.drop src.length

/-- ZkMafiaService.computeBulletCommitment, parametrised by the SHA-256
digest primitive. -/
def computeBulletCommitment (digest : List Nat → List Nat)
    (salt : List Nat) (position : Nat) : List Nat :=
  let preimage := List.replicate (32 + 1) 0
  let preimage := typedArraySet preimage salt
  let preimage := preimage.set 32 (position % 256)
  digest preimage

/-!
## Funding-handshake import (auto-parse effect and handleImportTransaction)

The number-guess frontend (and identically the dice-duel one) auto-parses
a pasted auth-entry artifact, rejecting it when the embedded Player 1
address equals the importing user's own address, and handleImportTransaction
re-runs the same check before any signing or submission.
-/

/-- The game parameters recovered from a funding-handshake artifact by
parseAuthEntry. -/
structure GameParams where
  sessionId : Nat
  player1 : String
  player1Points : Int
deriving DecidableEq, Repr

/-- The externally visible steps handleImportTransaction can perform, in
order: populate the read-only display fields, sign auth entries
(importAndSignAuthEntry), submit the transaction (finalizeStartGame). -/
inductive ImportEffect where
  | displayParsedFields
  | signAuthEntries
  | submitTransaction
deriving DecidableEq, Repr

/-- The error classes thrown by handleImportTransaction before reaching the
signing step. -/
inductive ImportError where
  | invalidPlayer2Points
  | parseFailure
  | selfPlay
deriving DecidableEq, Repr

/-- Result of the auto-parse useEffect: parse failure (fields cleared),
self-play rejection (error set, fields cleared), or fields populated. -/
inductive ParseOutcome where
  | failed
  | rejectedSelfPlay
  | populated (params : GameParams)
deriving DecidableEq, Repr

/-- The auto-parse effect of the import screen: parse the pasted artifact,
then reject with an error when the embedded Player 1 address equals the
current user's address, before populating any field. -/
def autoParseEffect (userAddress : String) (parsed : Option GameParams) :
    ParseOutcome :=
  match parsed with
  | none => .failed
  | some gp =>
      if gp.player1 = userAddress then .rejectedSelfPlay else .populated gp

/-- handleImportTransaction: parse Player 2's points, parse the artifact,
display the recovered fields, reject self-play, and only then sign and
submit.  Returns the performed effects and the error, if any. -/
def handleImportTransaction (userAddress : String)
    (player2PointsInput : String) (parsed : Option GameParams) :
    List ImportEffect × Option ImportError :=
  match parsePoints player2PointsInput with
  | none => ([], some .invalidPlayer2Points)
  | some p2 =>
      if p2 ≤ 0 then ([], some .invalidPlayer2Points)
      else
        match parsed with
        | none => ([], some .parseFailure)
        | some gp =>
            if gp.player1 = userAddress then
              ([.displayParsedFields], some .selfPlay)
            else
              ([.displayParsedFields, .signAuthEntries, .submitTransaction],
                none)

/-!
## Auth-entry splice (injectSignedAuthEntry, authEntryUtils.ts)

Walks the simulated auth entries, remembering the last address-credentialed
entry equal to Player 1's address (the stub to replace) and the last one
equal to Player 2's address (to be signed); source-account credentials are
skipped.  If no Player 1 stub exists the function throws; otherwise the
stub is replaced by Player 1's pre-signed entry, and Player 2's entry, when
one exists, is replaced by its signed version (when none exists Player 2 is
the invoker/source and needs no entry signature).
-/

/-- Soroban authorization credentials: the invoker source account, or an
address requiring an entry signature. -/
inductive Credentials where
  | sourceAccount
  | address (addr : String)
deriving DecidableEq, Repr

/-- An authorization entry: its credentials plus the signature it carries,
if any (a simulation stub carries none). -/
structure AuthEntry where
  creds : Credentials
  signature : Option String
deriving DecidableEq, Repr

/-- Extract the address of address credentials (the
`credentials().address()` accessor, which fails on other kinds). -/
def credentialAddr : Credentials → Option String
  | .sourceAccount => none
  | .address a => some a

/-- Whether an entry is address-credentialed with the given address. -/
def hasAddr (a : String) (e : AuthEntry) : Bool :=
  match e.creds with
  | .address b => b = a
  | .sourceAccount => false

/-- authorizeEntry driven by the given signer: the entry now carries that
signer's signature. -/
def signEntryAs (signer : String) (e : AuthEntry) : AuthEntry :=
  { e with signature := some signer }

/-- The scanning loop of injectSignedAuthEntry: index of the last entry
address-credentialed as Player 1, and index and value of the last entry
address-credentialed as Player 2 (an entry matching Player 1 is never also
considered for Player 2).  Indices are relative to the scanned list. -/
def scanAuthEntries (p1Addr p2Addr : String) :
    List AuthEntry → Option Nat × Option (Nat × AuthEntry)
  | [] => (none, none)
  | e :: rest =>
      let acc := scanAuthEntries p1Addr p2Addr rest
      let shifted : Option Nat × Option (Nat × AuthEntry) :=
        (acc.1.map (· + 1), acc.2.map (fun p => (p.1 + 1, p.2)))
      match e.creds with
      | .sourceAccount => shifted
      | .address a =>
          if a = p1Addr then (shifted.1 <|> some 0, shifted.2)
          else if a = p2Addr then (shifted.1, shifted.2 <|> some (0, e))
          else shifted

/-- injectSignedAuthEntry from authEntryUtils.ts.  Player 1's address is
read from the pre-signed entry itself. -/
def injectSignedAuthEntry (p1SignedEntry : AuthEntry) (p2Address : String)
    (authEntries : List AuthEntry) : Except String (List AuthEntry) :=
  match credentialAddr p1SignedEntry.creds with
  | none => .error "unexpected credential kind in the signed entry"
  | some p1Addr =>
      let scans := scanAuthEntries p1Addr p2Address authEntries
      match scans.1 with
      | none => .error "Could not find Player 1 stub entry in transaction"
      | some i =>
          let replaced := authEntries.set i p1SignedEntry
          match scans.2 with
          | none => .ok replaced
          | some (j, e2) => .ok (replaced.set j (signEntryAs p2Address e2))

/-!
## Loading the revolver and reading state (claim C1)

ZkMafiaService.cargarRevolver builds the `cargar_revolver` call with the
bullet position as a plain argument next to the commitment; `get_game`
returns the full PartidaRuleta record, bullet_position included.
-/

/-- The argument record of the `cargar_revolver` call, from bindings.ts. -/
structure CargarRevolverArgs where
  session_id : Nat
  player : String
  bullet_commitment : List Nat
  bullet_position : Nat
deriving DecidableEq, Repr

/-- ZkMafiaService.cargarRevolver: the published call arguments. -/
def cargarRevolverCall (sessionId : Nat) (player : String)
    (bulletCommitment : List Nat) (bulletPosition : Nat) :
    CargarRevolverArgs :=
  ⟨sessionId, player, bulletCommitment, bulletPosition⟩

/-!
## The contract's shot transition (claims C3 and C4)

The roulette contract's Rust source is not part of the repository: only its
generated TS bindings (doc comments, error table, state record), the
frontend service, and GAME_GUIDE.md describe `disparar`.  The transition is
therefore modelled from the spec below.
-/

/-- Big-endian 4-byte encoding of a 32-bit value, used to serialize the
hash seed `session_id` and `shots_fired`. -/
def u32be (n : Nat) : List Nat :=
  [n / 2 ^ 24 % 256, n / 2 ^ 16 % 256, n / 2 ^ 8 % 256, n % 256]

/-- Big-endian numeric value of a byte string. -/
def bytesToNat (l : List Nat) : Nat :=
  l.foldl (fun a b => a * 256 + b) 0

/-- Modelled from the spec: the deterministic reseed of the bullet chamber,
`hash(session_id ‖ shots_fired_so_far) mod 6` (GAME_GUIDE.md:
`SHA256(session_id || shots_fired) % 6`), with the digest primitive kept
abstract. -/
def deriveBulletPosition (digest : List Nat → List Nat)
    (sessionId shots : Nat) : Nat :=
  bytesToNat (digest (u32be sessionId ++ u32be shots)) % 6

/-- Index of the player with the given address, if registered. -/
def findPlayerIdx (players : List Jugador) (addr : String) : Option Nat :=
  players.findIdx? (fun j => j.address = addr)

/-- Number of players still alive. -/
def aliveCount (players : List Jugador) : Nat :=
  (players.filter (fun j => j.is_alive)).length

/-- Modelled from the spec: the next alive player in turn order after the
given index, wrapping around (bounded search). -/
def nextAliveTurnAux (players : List Jugador) : Nat → Nat → Nat
  | 0, i => i
  | fuel + 1, i =>
      let j := (i + 1) % players.length
      if (players.getD j default).is_alive then j
      else nextAliveTurnAux players fuel j

/-- Modelled from the spec: turn advance to the next alive player. -/
def nextAliveTurn (players : List Jugador) (i : Nat) : Nat :=
  nextAliveTurnAux players players.length i

/-- Modelled from the spec: the on-chain `disparar` transition, whose Rust
source is missing from the repository.  Per the bindings doc comment, the
game guide and §4.3 of the spec: phase, membership, turn and liveness are
validated; the shot hits exactly when the current chamber equals the
committed bullet chamber; a hit eliminates the firer; with one player left
the game finishes and that player is the winner; with two or more players
left the cylinder auto-reloads with the deterministic bullet position seeded
by the updated shot counter, which continues rather than resetting. -/
def disparar (digest : List Nat → List Nat) (g : PartidaRuleta)
    (player : String) : Except Nat (Bool × PartidaRuleta) :=
  if g.phase ≠ PHASE_PLAYING then .error 3
  else
    match findPlayerIdx g.players player with
    | none => .error 2
    | some idx =>
        if idx ≠ g.current_turn then .error 4
        else if (g.players.getD idx default).is_alive = false then .error 8
        else
          let hit := g.current_chamber = g.bullet_position
          let shots := g.shots_fired + 1
          if hit then
            let players := g.players.map (fun j =>
              if j.address = player then { j with is_alive := false } else j)
            let eliminated := g.eliminated ++ [player]
            let alive := players.filter (fun j => j.is_alive)
            if alive.length ≤ 1 then
              .ok (true, { g with
                players := players,
                eliminated := eliminated,
                shots_fired := shots,
                phase := PHASE_FINISHED,
                winner := (alive.head?).map (fun j => j.address) })
            else
              .ok (true, { g with
                players := players,
                eliminated := eliminated,
                shots_fired := shots,
                bullet_position := deriveBulletPosition digest g.session_id shots,
                current_chamber := 0,
                current_turn := nextAliveTurn players g.current_turn })
          else
            .ok (false, { g with
              shots_fired := shots,
              current_chamber := g.current_chamber + 1,
              current_turn := nextAliveTurn g.players g.current_turn })

/-- The hit predicate computed by the frontend's handleDisparar before it
submits the shot: `current_chamber === bullet_position`, both read from
on-chain state. -/
def handleDispararIsHit (game : PartidaRuleta) : Bool :=
  game.current_chamber == game.bullet_position

/-- The hit predicate computed by the frontend's handleBotShot, identical
in source to handleDisparar's. -/
def handleBotShotIsHit (game : PartidaRuleta) : Bool :=
  game.current_chamber == game.bullet_position

/-!
## Concrete fixtures

Small concrete sessions used to evaluate the transition at explicit inputs
(the reseed scenario of §8 of the spec, and a two-player finishing shot).
-/

/-- A three-player session two safe shots in, with the bullet under the
current chamber. -/
def exampleGame3 : PartidaRuleta :=
  { bullet_commitment := List.replicate 32 0
    bullet_position := 2
    current_chamber := 2
    current_turn := 0
    eliminated := []
    hub_player1 := "G1"
    hub_player2 := "G2"
    phase := PHASE_PLAYING
    players := [⟨"PA", true, 0⟩, ⟨"PB", true, 0⟩, ⟨"PC", true, 0⟩]
    session_id := 7
    shots_fired := 2
    winner := none }

/-- exampleGame3 after the hit on PA: two players remain, the cylinder
auto-reloads with the derived position (the empty digest gives 0), and the
shot counter continues at 3. -/
def exampleGame3After : PartidaRuleta :=
  { bullet_commitment := List.replicate 32 0
    bullet_position := 0
    current_chamber := 0
    current_turn := 1
    eliminated := ["PA"]
    hub_player1 := "G1"
    hub_player2 := "G2"
    phase := PHASE_PLAYING
    players := [⟨"PA", false, 0⟩, ⟨"PB", true, 0⟩, ⟨"PC", true, 0⟩]
    session_id := 7
    shots_fired := 3
    winner := none }

/-- A two-player session with the bullet under the first chamber. -/
def exampleGame2 : PartidaRuleta :=
  { bullet_commitment := List.replicate 32 0
    bullet_position := 0
    current_chamber := 0
    current_turn := 0
    eliminated := []
    hub_player1 := "G1"
    hub_player2 := "G2"
    phase := PHASE_PLAYING
    players := [⟨"PA", true, 0⟩, ⟨"PB", true, 0⟩]
    session_id := 9
    shots_fired := 0
    winner := none }

/-- exampleGame2 after the hit on PA: PB is the last player alive, the
game finishes and PB is the winner. -/
def exampleGame2After : PartidaRuleta :=
  { bullet_commitment := List.replicate 32 0
    bullet_position := 0
    current_chamber := 0
    current_turn := 0
    eliminated := ["PA"]
    hub_player1 := "G1"
    hub_player2 := "G2"
    phase := PHASE_FINISHED
    players := [⟨"PA", false, 0⟩, ⟨"PB", true, 0⟩]
    session_id := 9
    shots_fired := 1
    winner := some "PB" }

/-!
# Theorems
-/

/-- The while-loop of createRandomSessionId only ever returns a non-zero
32-bit value. -/
theorem firstNonZeroU32_range (draws : List Nat) (v : Nat)
    (h : firstNonZeroU32 draws = some v) : 1 ≤ v ∧ v ≤ 2 ^ 32 - 1 := by
  induction draws with
  | nil => simp [firstNonZeroU32] at h
  | cons d rest ih =>
      unfold firstNonZeroU32 at h
      by_cases hz : d % 2 ^ 32 = 0
      · simp only [hz, if_pos rfl] at h
        exact ih h
      · simp only [if_neg hz] at h
        obtain rfl : d % 2 ^ 32 = v := by exact Option.some.inj h
        refine ⟨Nat.one_le_iff_ne_zero.mpr hz, ?_⟩
        exact Nat.le_sub_one_of_lt (Nat.mod_lt _ (by norm_num))

/-- C8: createRandomSessionId (both branches) and the URL-less fallback of
getInitialSessionId return a session id in the range 1 to 2^32 - 1
inclusive: never 0 and never beyond the u32 domain. -/
theorem c8_session_id_range :
    (∀ draws v, createRandomSessionIdCrypto draws = some v →
      1 ≤ v ∧ v ≤ 2 ^ 32 - 1) ∧
    (∀ r, r < 0xffffffff →
      1 ≤ createRandomSessionIdFallback r ∧
        createRandomSessionIdFallback r ≤ 2 ^ 32 - 1) ∧
    (∀ d, 1 ≤ getInitialSessionIdFallback d ∧
      getInitialSessionIdFallback d ≤ 2 ^ 32 - 1) := by
  refine ⟨fun draws v h => firstNonZeroU32_range draws v h, fun r hr => ?_, fun d => ?_⟩
  · simp only [createRandomSessionIdFallback]
    split <;> omega
  · simp only [getInitialSessionIdFallback]
    split <;> omega

/-- Witness for C8 at concrete inputs: a zero draw followed by 5 on the
crypto branch, and zero-valued raw draws on both fallbacks. -/
theorem c8_session_id_range_witness :
    (1 ≤ 5 ∧ 5 ≤ 2 ^ 32 - 1) ∧
    (1 ≤ createRandomSessionIdFallback 0 ∧
      createRandomSessionIdFallback 0 ≤ 2 ^ 32 - 1) ∧
    (1 ≤ getInitialSessionIdFallback 0 ∧
      getInitialSessionIdFallback 0 ≤ 2 ^ 32 - 1) :=
  ⟨c8_session_id_range.1 [0, 5] 5 (by decide),
    c8_session_id_range.2.1 0 (by norm_num),
    c8_session_id_range.2.2 0⟩

/-- C10: generateZkProof always returns a 32-byte array with at least one
non-zero byte (whenever it is fed 32 random draws); the all-zero proof,
which the contract would reject as InvalidProof, is never produced. -/
theorem c10_zk_proof_nonzero (draws : List Nat) (h : draws.length = 32) :
    (generateZkProof draws).length = 32 ∧
      ∃ b ∈ generateZkProof draws, b ≠ 0 := by
  obtain ⟨d, rest, rfl⟩ : ∃ d rest, draws = d :: rest := by
    cases draws with
    | nil => simp at h
    | cons d rest => exact ⟨d, rest, rfl⟩
  unfold generateZkProof
  by_cases hall : ((d :: rest).map (fun x => x % 256)).all (fun b => b == 0) = true
  · rw [if_pos hall]
    refine ⟨?_, ?_⟩
    · rw [List.length_set]
      simpa using h
    · refine ⟨1, ?_, one_ne_zero⟩
      simp [List.set]
  · rw [if_neg hall]
    refine ⟨by simpa using h, ?_⟩
    have hfalse : ((d :: rest).map (fun x => x % 256)).all (fun b => b == 0) = false := by
      simpa using hall
    obtain ⟨x, hx, hxz⟩ := List.all_eq_false.mp hfalse
    exact ⟨x, hx, by simpa using hxz⟩

/-- Witness for C10 at the all-zero 32-draw input. -/
theorem c10_zk_proof_nonzero_witness :
    (generateZkProof (List.replicate 32 0)).length = 32 ∧
      ∃ b ∈ generateZkProof (List.replicate 32 0), b ≠ 0 :=
  c10_zk_proof_nonzero (List.replicate 32 0) (by decide)

/-- C7 counterexample: the service wrappers collapse distinct failures into
the same neutral value: getGame returns null both for the GameNotFound
contract error (code 1) and for the NotPlayer error (code 2), and
whoIsAlive returns the empty list both for GameNotFound and for a thrown
simulation failure, so neither read distinguishes a specific not-found
error from other failures. -/
theorem c7_counterexample_collapse :
    getGame (SimOutcome.err 1) = getGame (SimOutcome.err 2) ∧
    getGame (SimOutcome.err 1) = none ∧
    whoIsAlive (SimOutcome.err 1) = whoIsAlive SimOutcome.exn ∧
    whoIsAlive (SimOutcome.err 1) = [] ∧
    errorsTable 1 = some "GameNotFound" ∧
    errorsTable 2 = some "NotPlayer" :=
  ⟨rfl, rfl, rfl, rfl, rfl, rfl⟩

/-- C7 amended: the contract calls themselves return typed Results with
specific error kinds (the bindings Errors table), but the service wrappers
getGame and whoIsAlive collapse every non-ok outcome — not-found included —
into null and the empty list respectively. -/
theorem c7_amended_collapse (o : SimOutcome PartidaRuleta)
    (o2 : SimOutcome (List String)) (h : o.isOk = false)
    (h2 : o2.isOk = false) :
    getGame o = none ∧ whoIsAlive o2 = [] := by
  cases o <;> cases o2 <;> simp_all [SimOutcome.isOk, getGame, whoIsAlive]

/-- Witness for C7 amended at the GameNotFound error and a thrown
simulation failure. -/
theorem c7_amended_collapse_witness :
    getGame (SimOutcome.err 1) = none ∧
      whoIsAlive (SimOutcome.exn) = [] :=
  c7_amended_collapse (SimOutcome.err 1) SimOutcome.exn rfl rfl

/-- C1 counterexample: loading the revolver publishes the bullet position
in clear as a call argument (two loads differing only in the position
produce different published calls), and the session state visible through
get_game before any shot differs between two runs that differ only in the
hidden bullet position — a non-host observer distinguishes them. -/
theorem c1_counterexample_bullet_visible :
    (cargarRevolverCall 7 "GHOST" (List.replicate 32 0) 2 ≠
      cargarRevolverCall 7 "GHOST" (List.replicate 32 0) 5) ∧
    (getGame (SimOutcome.ok
        { bullet_commitment := List.replicate 32 9
          bullet_position := 2
          current_chamber := 0
          current_turn := 0
          eliminated := []
          hub_player1 := "G1"
          hub_player2 := "G2"
          phase := PHASE_PLAYING
          players := [⟨"G1", true, 0⟩, ⟨"G2", true, 0⟩]
          session_id := 7
          shots_fired := 0
          winner := none }) ≠
      getGame (SimOutcome.ok
        { bullet_commitment := List.replicate 32 9
          bullet_position := 5
          current_chamber := 0
          current_turn := 0
          eliminated := []
          hub_player1 := "G1"
          hub_player2 := "G2"
          phase := PHASE_PLAYING
          players := [⟨"G1", true, 0⟩, ⟨"G2", true, 0⟩]
          session_id := 7
          shots_fired := 0
          winner := none })) := by
  constructor <;> decide

/-- C1 amended: the committed bullet chamber is not hidden: the
cargar_revolver call publishes the position in plaintext alongside the
commitment digest, and the get_game state read available to every player
before resolution exposes bullet_position, so any two runs differing only
in the bullet position are distinguishable by a non-host observer. -/
theorem c1_amended_bullet_published (g g' : PartidaRuleta)
    (h : g.bullet_position ≠ g'.bullet_position) :
    getGame (SimOutcome.ok g) ≠ getGame (SimOutcome.ok g') ∧
    ∀ sid player comm pos,
      (cargarRevolverCall sid player comm pos).bullet_position = pos := by
  refine ⟨fun heq => ?_, fun _ _ _ _ => rfl⟩
  exact h (congrArg PartidaRuleta.bullet_position (Option.some.inj heq))

/-- Witness for C1 amended at two concrete pre-shot states differing only
in the bullet position. -/
theorem c1_amended_bullet_published_witness :
    getGame (SimOutcome.ok
        { bullet_commitment := List.replicate 32 9
          bullet_position := 0
          current_chamber := 0
          current_turn := 0
          eliminated := []
          hub_player1 := "G1"
          hub_player2 := "G2"
          phase := PHASE_PLAYING
          players := [⟨"G1", true, 0⟩, ⟨"G2", true, 0⟩]
          session_id := 7
          shots_fired := 0
          winner := none }) ≠
      getGame (SimOutcome.ok
        { bullet_commitment := List.replicate 32 9
          bullet_position := 3
          current_chamber := 0
          current_turn := 0
          eliminated := []
          hub_player1 := "G1"
          hub_player2 := "G2"
          phase := PHASE_PLAYING
          players := [⟨"G1", true, 0⟩, ⟨"G2", true, 0⟩]
          session_id := 7
          shots_fired := 0
          winner := none }) ∧
    ∀ sid player comm pos,
      (cargarRevolverCall sid player comm pos).bullet_position = pos :=
  c1_amended_bullet_published _ _ (by decide)

/-- C5: an imported funding-handshake artifact whose embedded Player 1
address equals the importing user's own address is rejected with an error
both by the auto-parse effect and by handleImportTransaction, and no
signing or submission effect is performed. -/
theorem c5_selfplay_rejected (userAddress p2input : String)
    (gp : GameParams) (h : gp.player1 = userAddress) :
    autoParseEffect userAddress (some gp) = ParseOutcome.rejectedSelfPlay ∧
    ((handleImportTransaction userAddress p2input (some gp)).2).isSome = true ∧
    ImportEffect.signAuthEntries ∉
      (handleImportTransaction userAddress p2input (some gp)).1 ∧
    ImportEffect.submitTransaction ∉
      (handleImportTransaction userAddress p2input (some gp)).1 := by
  refine ⟨by simp [autoParseEffect, h], ?_, ?_, ?_⟩ <;>
    · unfold handleImportTransaction
      cases hp : parsePoints p2input with
      | none => simp
      | some p2 =>
          by_cases hle : p2 ≤ 0
          · simp [hle]
          · simp [hle, h]

/-- Witness for C5: a concrete artifact created by the importing user. -/
theorem c5_selfplay_rejected_witness :
    autoParseEffect "GUSER" (some ⟨11, "GUSER", 100⟩) =
      ParseOutcome.rejectedSelfPlay ∧
    ((handleImportTransaction "GUSER" "0.1" (some ⟨11, "GUSER", 100⟩)).2).isSome = true ∧
    ImportEffect.signAuthEntries ∉
      (handleImportTransaction "GUSER" "0.1" (some ⟨11, "GUSER", 100⟩)).1 ∧
    ImportEffect.submitTransaction ∉
      (handleImportTransaction "GUSER" "0.1" (some ⟨11, "GUSER", 100⟩)).1 :=
  c5_selfplay_rejected "GUSER" "0.1" ⟨11, "GUSER", 100⟩ rfl

/-- Setting the final element of an appended singleton. -/
theorem set_append_last {α : Type} (l : List α) (a v : α) :
    (l ++ [a]).set l.length v = l ++ [v] := by
  induction l with
  | nil => rfl
  | cons x xs ih => simp [List.set, ih]

/-- C2: for every 32-byte salt and every position, computeBulletCommitment
digests exactly the 33-byte preimage consisting of the salt followed by
the position truncated to a single byte, i.e. it returns
SHA-256(salt ‖ position_byte), mirroring the on-chain compute_bullet_hash
helper. -/
theorem c2_commitment_preimage (digest : List Nat → List Nat)
    (salt : List Nat) (position : Nat) (h : salt.length = 32) :
    computeBulletCommitment digest salt position =
      digest (salt ++ [position % 256]) := by
  have h1 : typedArraySet (List.replicate (32 + 1) 0) salt = salt ++ [0] := by
    unfold typedArraySet
    rw [h, List.drop_replicate]
    norm_num
  have h2 : (salt ++ [0]).set 32 (position % 256) =
      salt ++ [position % 256] := by
    rw [← h]
    exact set_append_last salt 0 (position % 256)
  simp only [computeBulletCommitment]
  rw [h1, h2]

/-- Witness for C2 at a concrete salt and position, with the digest
primitive instantiated by the identity function. -/
theorem c2_commitment_preimage_witness :
    computeBulletCommitment (fun l => l) (List.replicate 32 7) 3 =
      List.replicate 32 7 ++ [3 % 256] :=
  c2_commitment_preimage (fun l => l) (List.replicate 32 7) 3 (by decide)

/-- splitOnDot never returns the empty list of parts. -/
theorem splitOnDot_ne_nil (l : List Char) : splitOnDot l ≠ [] := by
  induction l with
  | nil => simp [splitOnDot]
  | cons c rest ih =>
      unfold splitOnDot
      by_cases hc : c = '.'
      · simp [hc]
      · simp only [if_neg hc]
        cases hs : splitOnDot rest with
        | nil => simp
        | cons p ps => simp

/-- Every character of every part of splitOnDot comes from the input and is
not a dot. -/
theorem splitOnDot_chars (l : List Char) :
    ∀ p ∈ splitOnDot l, ∀ c ∈ p, c ∈ l ∧ c ≠ '.' := by
  induction l with
  | nil =>
      intro p hp c hc
      simp [splitOnDot] at hp
      subst hp
      simp at hc
  | cons x rest ih =>
      intro p hp c hc
      unfold splitOnDot at hp
      by_cases hx : x = '.'
      · rw [if_pos hx] at hp
        rcases List.mem_cons.mp hp with h | h
        · subst h; simp at hc
        · obtain ⟨hmem, hne⟩ := ih p h c hc
          exact ⟨List.mem_cons_of_mem _ hmem, hne⟩
      · rw [if_neg hx] at hp
        cases hs : splitOnDot rest with
        | nil => exact absurd hs (splitOnDot_ne_nil rest)
        | cons q qs =>
            rw [hs] at hp
            rcases List.mem_cons.mp hp with h | h
            · subst h
              rcases List.mem_cons.mp hc with h | h
              · subst h; exact ⟨List.mem_cons_self _ _, hx⟩
              · obtain ⟨hmem, hne⟩ := ih q (hs ▸ List.mem_cons_self q qs) c h
                exact ⟨List.mem_cons_of_mem _ hmem, hne⟩
            · obtain ⟨hmem, hne⟩ :=
                ih p (hs ▸ List.mem_cons_of_mem q h) c hc
              exact ⟨List.mem_cons_of_mem _ hmem, hne⟩

/-- The parts of the cleaned input consist of decimal digits only. -/
theorem splitOnDot_cleaned_digits (s : String) :
    ∀ p ∈ splitOnDot (cleanedOf s), ∀ c ∈ p, c.isDigit = true := by
  intro p hp c hc
  obtain ⟨hmem, hne⟩ := splitOnDot_chars (cleanedOf s) p hp c hc
  have hpc : isPointsChar c = true := List.of_mem_filter hmem
  unfold isPointsChar at hpc
  rcases Bool.or_eq_true_iff.mp hpc with h | h
  · exact h
  · exact absurd (by simpa using h) hne

/-- Positional evaluation of a digit-string concatenation. -/
theorem digitsToNat_append (a b : List Char) :
    digitsToNat (a ++ b) = digitsToNat a * 10 ^ b.length + digitsToNat b := by
  have aux : ∀ (b : List Char) (acc : Nat),
      b.foldl (fun a c => a * 10 + (c.toNat - 48)) acc =
        acc * 10 ^ b.length + b.foldl (fun a c => a * 10 + (c.toNat - 48)) 0 := by
    intro b
    induction b with
    | nil => intro acc; simp
    | cons c bs ih =>
        intro acc
        simp only [List.foldl_cons, List.length_cons]
        rw [ih (acc * 10 + (c.toNat - 48)), ih (0 * 10 + (c.toNat - 48))]
        ring
  unfold digitsToNat
  rw [List.foldl_append, aux b]

/-- A run of zero characters has digit value zero. -/
theorem digitsToNat_replicate_zero (k : Nat) :
    digitsToNat (List.replicate k '0') = 0 := by
  induction k with
  | zero => rfl
  | succ n ih =>
      unfold digitsToNat at *
      simp only [List.replicate_succ, List.foldl_cons]
      simpa using ih

/-- C9: parsePoints is total by construction, returns null exactly when the
cleaned input is empty or a lone dot (the BigInt conversion itself never
throws), and otherwise returns a non-negative value equal to the parsed
decimal scaled to 7 decimal places with fractional digits beyond the 7th
truncated — it can never produce a negative wager. -/
theorem c9_parse_points_safe (s : String) :
    (parsePoints s = none ↔ (cleanedOf s = [] ∨ cleanedOf s = ['.'])) ∧
    ∀ n, parsePoints s = some n →
      0 ≤ n ∧ n = Int.ofNat (decimalScaled (wholeOf s) (fractionOf s)) := by
  have hdigits := splitOnDot_cleaned_digits s
  by_cases hguard : cleanedOf s = [] ∨ cleanedOf s = ['.']
  · constructor
    · simp [parsePoints, hguard]
    · intro n hn
      simp [parsePoints, hguard] at hn
  · -- names for the pieces of the computation
    set whole := (splitOnDot (cleanedOf s)).getD 0 [] with hwhole
    set fraction := (splitOnDot (cleanedOf s)).getD 1 [] with hfraction
    set padded :=
      (fraction ++ List.replicate (POINTS_DECIMALS - fraction.length) '0').take
        POINTS_DECIMALS with hpadded
    have hwin : whole ∈ splitOnDot (cleanedOf s) := by
      rw [hwhole]
      cases hs0 : splitOnDot (cleanedOf s) with
      | nil => exact absurd hs0 (splitOnDot_ne_nil _)
      | cons p ps => simp
    have hwdig : ∀ c ∈ whole, c.isDigit = true := fun c hc =>
      hdigits whole hwin c hc
    have hfdig : ∀ c ∈ fraction, c.isDigit = true := by
      rw [hfraction]
      unfold List.getD
      cases hs1 : (splitOnDot (cleanedOf s)).get? 1 with
      | none => simp
      | some q =>
          simp only [Option.getD_some]
          exact fun c hc => hdigits q (List.get?_mem hs1) c hc
    have hpdig : ∀ c ∈ padded, c.isDigit = true := by
      intro c hc
      rw [hpadded] at hc
      have := List.mem_of_mem_take hc
      rcases List.mem_append.mp this with h | h
      · exact hfdig c h
      · rw [List.eq_of_mem_replicate h]
        decide
    have hall : (whole ++ padded).all Char.isDigit = true := by
      rw [List.all_append]
      refine Bool.and_eq_true_iff.mpr ⟨?_, ?_⟩ <;>
        · rw [List.all_eq_true]
          first
            | exact fun c hc => hwdig c hc
            | exact fun c hc => hpdig c hc
    have hbig : bigIntOfDigitString (whole ++ padded) =
        some (Int.ofNat (digitsToNat (whole ++ padded))) := by
      unfold bigIntOfDigitString
      rw [if_pos hall]
    have hsome : parsePoints s =
        some (Int.ofNat (digitsToNat (whole ++ padded))) := by
      unfold parsePoints
      rw [if_neg hguard]
      simp only [← hwhole, ← hfraction, ← hpadded, hbig]
    have hplen : padded.length = POINTS_DECIMALS := by
      rw [hpadded]
      rw [List.length_take, List.length_append, List.length_replicate]
      omega
    have hpval : digitsToNat padded =
        digitsToNat (fraction.take POINTS_DECIMALS) *
          10 ^ (POINTS_DECIMALS - (fraction.take POINTS_DECIMALS).length) := by
      by_cases hlen : fraction.length ≤ POINTS_DECIMALS
      · have htake : fraction.take POINTS_DECIMALS = fraction :=
          List.take_of_length_le hlen
        have hpad_eq : padded =
            fraction ++ List.replicate (POINTS_DECIMALS - fraction.length) '0' := by
          rw [hpadded]
          apply List.take_of_length_le
          rw [List.length_append, List.length_replicate]
          omega
        rw [hpad_eq, digitsToNat_append, digitsToNat_replicate_zero,
          List.length_replicate, htake]
        ring
      · have hrep : POINTS_DECIMALS - fraction.length = 0 := by omega
        have htlen : (fraction.take POINTS_DECIMALS).length =
            POINTS_DECIMALS := by
          rw [List.length_take]
          omega
        rw [hpadded, hrep, List.replicate_zero, List.append_nil, htlen]
        simp
    constructor
    · rw [hsome]
      simp [hguard]
    · intro n hn
      rw [hsome] at hn
      obtain rfl := (Option.some.inj hn).symm
      refine ⟨Int.ofNat_nonneg _, ?_⟩
      unfold decimalScaled
      rw [digitsToNat_append, hplen, hpval]
      rfl

/-- Witness for C9 at the concrete input "1.5": one point five scaled to 7
decimals. -/
theorem c9_parse_points_safe_witness :
    parsePoints "1.5" = some 15000000 ∧
    (0 ≤ (15000000 : Int) ∧
      (15000000 : Int) =
        Int.ofNat (decimalScaled (wholeOf "1.5") (fractionOf "1.5"))) :=
  ⟨by decide, (c9_parse_points_safe "1.5").2 15000000 (by decide)⟩

/-- Marking the firing player dead: any mapped player carrying the firer's
address is no longer alive. -/
theorem mem_map_kill_dead (players : List Jugador) (player : String)
    (j : Jugador)
    (hj : j ∈ players.map (fun x =>
      if x.address = player then { x with is_alive := false } else x))
    (ha : j.address = player) : j.is_alive = false := by
  obtain ⟨x, hx, rfl⟩ := List.mem_map.mp hj
  by_cases hxa : x.address = player
  · simp [hxa]
  · simp only [if_neg hxa] at ha ⊢
    exact absurd ha hxa

/-- C3: after an elimination that leaves at least two players alive, the
new bullet chamber is derived deterministically as
hash(session_id ‖ shots_fired_so_far) mod 6, the shot counter continues
from its current value rather than resetting to 0, and play continues. -/
theorem c3_reload_deterministic (digest : List Nat → List Nat)
    (g : PartidaRuleta) (player : String) (g' : PartidaRuleta)
    (h : disparar digest g player = Except.ok (true, g'))
    (h2 : 2 ≤ aliveCount g'.players) :
    g'.bullet_position =
      bytesToNat (digest (u32be g.session_id ++ u32be (g.shots_fired + 1))) % 6 ∧
    g'.shots_fired = g.shots_fired + 1 ∧
    g'.phase = PHASE_PLAYING := by
  simp only [disparar] at h
  split at h
  · exact absurd h (by simp)
  rename_i hphase
  split at h
  · exact absurd h (by simp)
  rename_i idx hidx
  split at h
  · exact absurd h (by simp)
  rename_i hturn
  split at h
  · exact absurd h (by simp)
  rename_i halive
  split at h
  · rename_i hhit
    split at h
    · rename_i hle
      injection h with h1
      injection h1 with hb hrec
      subst hrec
      exfalso
      simp only [aliveCount] at h2
      omega
    · rename_i hgt
      injection h with h1
      injection h1 with hb hrec
      subst hrec
      refine ⟨?_, ?_, ?_⟩
      · simp [deriveBulletPosition]
      · simp
      · simpa using not_not.mp hphase
  · rename_i hmiss
    injection h with h1
    injection h1 with hb hrec
    exact absurd hb (by simp)

/-- Witness for C3: the §8 reseed scenario — three players, bullet at
chamber 2, the third shot hits; two players remain, the new bullet position
is the derived one and the counter continues at 3. -/
theorem c3_reload_deterministic_witness :
    2 ≤ aliveCount exampleGame3After.players ∧
    (exampleGame3After.bullet_position =
      bytesToNat ((fun _ => ([] : List Nat))
        (u32be exampleGame3.session_id ++
          u32be (exampleGame3.shots_fired + 1))) % 6 ∧
    exampleGame3After.shots_fired = exampleGame3.shots_fired + 1 ∧
    exampleGame3After.phase = PHASE_PLAYING) :=
  ⟨by decide,
    c3_reload_deterministic (fun _ => ([] : List Nat)) exampleGame3 "PA"
      exampleGame3After (by rfl) (by decide)⟩

/-- C4: a fire action in an Active session hits exactly when the current
chamber equals the committed bullet chamber; the frontend handleDisparar
and handleBotShot compute the same hit value from on-chain state; a hit
eliminates the firer, and when it leaves a single player alive that player
is the winner and the game finishes. -/
theorem c4_hit_iff_chamber_eq_bullet (digest : List Nat → List Nat)
    (g : PartidaRuleta) (player : String) (hit : Bool) (g' : PartidaRuleta)
    (h : disparar digest g player = Except.ok (hit, g')) :
    (hit = true ↔ g.current_chamber = g.bullet_position) ∧
    handleDispararIsHit g = hit ∧
    handleBotShotIsHit g = hit ∧
    (hit = true →
      (∀ j ∈ g'.players, j.address = player → j.is_alive = false) ∧
      player ∈ g'.eliminated ∧
      (aliveCount g'.players = 1 →
        g'.phase = PHASE_FINISHED ∧
        ∃ j, g'.players.filter (fun x => x.is_alive) = [j] ∧
          g'.winner = some j.address)) := by
  simp only [disparar] at h
  split at h
  · exact absurd h (by simp)
  rename_i hphase
  split at h
  · exact absurd h (by simp)
  rename_i idx hidx
  split at h
  · exact absurd h (by simp)
  rename_i hturn
  split at h
  · exact absurd h (by simp)
  rename_i halive
  split at h
  · rename_i hhit
    have hfront : handleDispararIsHit g = true := by
      simp [handleDispararIsHit, hhit]
    split at h
    · rename_i hle
      injection h with h1
      injection h1 with hb hrec
      subst hb
      subst hrec
      refine ⟨by simp [hhit], hfront, hfront, fun _ => ⟨?_, ?_, ?_⟩⟩
      · intro j hj ha
        exact mem_map_kill_dead g.players player j hj ha
      · simp
      · intro hone
        refine ⟨by simp, ?_⟩
        simp only [aliveCount] at hone
        obtain ⟨j, hj⟩ := List.length_eq_one.mp hone
        refine ⟨j, hj, ?_⟩
        have hw := congrArg
          (fun l => l.head?.map (fun x : Jugador => x.address)) hj
        exact hw.trans rfl
    · rename_i hgt
      injection h with h1
      injection h1 with hb hrec
      subst hb
      subst hrec
      refine ⟨by simp [hhit], hfront, hfront, fun _ => ⟨?_, ?_, ?_⟩⟩
      · intro j hj ha
        exact mem_map_kill_dead g.players player j hj ha
      · simp
      · intro hone
        exfalso
        simp only [aliveCount] at hone
        omega
  · rename_i hmiss
    injection h with h1
    injection h1 with hb hrec
    subst hb
    have hfront : handleDispararIsHit g = false := by
      simp [handleDispararIsHit, hmiss]
    exact ⟨by simp [hmiss], hfront, hfront, fun hc => absurd hc (by simp)⟩

/-- Witness for C4: the two-player finishing shot — the hit is predicted by
the frontend, the firer is eliminated, and the survivor is the winner. -/
theorem c4_hit_iff_chamber_eq_bullet_witness :
    (true = true ↔ exampleGame2.current_chamber = exampleGame2.bullet_position) ∧
    handleDispararIsHit exampleGame2 = true ∧
    handleBotShotIsHit exampleGame2 = true ∧
    "PA" ∈ exampleGame2After.eliminated ∧
    exampleGame2After.phase = PHASE_FINISHED ∧
    exampleGame2After.winner = some "PB" := by
  have r := c4_hit_iff_chamber_eq_bullet (fun _ => ([] : List Nat))
    exampleGame2 "PA" true exampleGame2After (by rfl)
  obtain ⟨hiff, hd, hb, hrest⟩ := r
  obtain ⟨hdead, hmem, hfin⟩ := hrest rfl
  obtain ⟨hphase, j, hj, hw⟩ := hfin (by decide)
  have hj2 : j = (⟨"PB", true, 0⟩ : Jugador) := by
    have hflt : exampleGame2After.players.filter (fun x => x.is_alive) =
        [⟨"PB", true, 0⟩] := by decide
    rw [hflt] at hj
    injection hj with h1 h2
    exact h1.symm
  refine ⟨hiff, hd, hb, hmem, hphase, ?_⟩
  rw [hw, hj2]

/-- An entry credentialed with one address is not credentialed with a
different address. -/
theorem hasAddr_of_other (a : String) (e : AuthEntry) (b : String)
    (hb : hasAddr b e = true) (hne : a ≠ b) : hasAddr a e = false := by
  obtain ⟨ec, es⟩ := e
  cases ec with
  | sourceAccount => simp [hasAddr] at hb
  | address x =>
      simp [hasAddr] at hb ⊢
      intro hxa
      rw [hxa] at hb
      exact hne hb

/-- Two positions of matches of a predicate that holds at most once
coincide. -/
theorem countP_le_one_unique {α : Type} (p : α → Bool) (l : List α)
    (h : l.countP p ≤ 1) (i j : Nat) (hi : i < l.length) (hj : j < l.length)
    (hpi : p (l[i]) = true) (hpj : p (l[j]) = true) : i = j := by
  induction l generalizing i j with
  | nil => simp at hi
  | cons e rest ih =>
      have hcount : rest.countP p + (if p e then 1 else 0) ≤ 1 := by
        rw [← List.countP_cons]
        exact h
      cases i with
      | zero =>
          cases j with
          | zero => rfl
          | succ m =>
              exfalso
              have hjm : m < rest.length := by
                simp only [List.length_cons] at hj
                omega
              have hpe : p e = true := by simpa using hpi
              have hmem : p (rest[m]) = true := by simpa using hpj
              have hpos : 0 < rest.countP p :=
                List.countP_pos_iff.mpr ⟨rest[m], List.getElem_mem hjm, hmem⟩
              rw [hpe, if_pos rfl] at hcount
              omega
      | succ m =>
          cases j with
          | zero =>
              exfalso
              have him : m < rest.length := by
                simp only [List.length_cons] at hi
                omega
              have hpe : p e = true := by simpa using hpj
              have hmem : p (rest[m]) = true := by simpa using hpi
              have hpos : 0 < rest.countP p :=
                List.countP_pos_iff.mpr ⟨rest[m], List.getElem_mem him, hmem⟩
              rw [hpe, if_pos rfl] at hcount
              omega
          | succ m2 =>
              have him : m < rest.length := by
                simp only [List.length_cons] at hi
                omega
              have hjm : m2 < rest.length := by
                simp only [List.length_cons] at hj
                omega
              have hrest : rest.countP p ≤ 1 := by
                cases hpe : p e
                · rw [hpe, if_neg Bool.false_ne_true] at hcount
                  omega
                · rw [hpe, if_pos rfl] at hcount
                  omega
              have := ih hrest m m2 him hjm (by simpa using hpi)
                (by simpa using hpj)
              omega

/-- When no entry matches Player 1, the scan finds no stub. -/
theorem scan_fst_eq_none (p1 p2 : String) (l : List AuthEntry)
    (h : l.countP (hasAddr p1) = 0) : (scanAuthEntries p1 p2 l).1 = none := by
  induction l with
  | nil => rfl
  | cons e rest ih =>
      rw [List.countP_cons] at h
      have he : hasAddr p1 e = false := by
        by_cases hb : hasAddr p1 e = true
        · simp [hb] at h
        · simpa using hb
      have hr : rest.countP (hasAddr p1) = 0 := by
        simpa [he] using h
      obtain ⟨ec, es⟩ := e
      cases ec with
      | sourceAccount =>
          simp only [scanAuthEntries]
          simp [ih hr]
      | address a =>
          have ha1 : ¬ a = p1 := by
            simpa [hasAddr] using he
          simp only [scanAuthEntries]
          by_cases ha2 : a = p2
          · rw [if_neg ha1, if_pos ha2]
            simp [ih hr]
          · rw [if_neg ha1, if_neg ha2]
            simp [ih hr]

/-- When some entry matches Player 1, the scan finds a stub index. -/
theorem scan_fst_some_exists (p1 p2 : String) (l : List AuthEntry)
    (h : l.countP (hasAddr p1) ≠ 0) :
    ∃ j, (scanAuthEntries p1 p2 l).1 = some j := by
  induction l with
  | nil => simp [List.countP_nil] at h
  | cons e rest ih =>
      rw [List.countP_cons] at h
      obtain ⟨ec, es⟩ := e
      cases ec with
      | sourceAccount =>
          have he : hasAddr p1 ⟨Credentials.sourceAccount, es⟩ = false := by
            simp [hasAddr]
          simp only [he, if_neg Bool.false_ne_true, Nat.add_zero] at h
          obtain ⟨j0, hj0⟩ := ih h
          exact ⟨j0 + 1, by simp only [scanAuthEntries]; simp [hj0]⟩
      | address a =>
          by_cases ha1 : a = p1
          · cases hacc : (scanAuthEntries p1 p2 rest).1 with
            | none =>
                refine ⟨0, ?_⟩
                simp only [scanAuthEntries]
                rw [if_pos ha1]
                simp [hacc]
            | some j0 =>
                refine ⟨j0 + 1, ?_⟩
                simp only [scanAuthEntries]
                rw [if_pos ha1]
                simp [hacc]
          · have he : hasAddr p1 ⟨Credentials.address a, es⟩ = false := by
              simp [hasAddr, ha1]
            simp only [he, if_neg Bool.false_ne_true, Nat.add_zero] at h
            obtain ⟨j0, hj0⟩ := ih h
            by_cases ha2 : a = p2
            · refine ⟨j0 + 1, ?_⟩
              simp only [scanAuthEntries]
              rw [if_neg ha1, if_pos ha2]
              simp [hj0]
            · refine ⟨j0 + 1, ?_⟩
              simp only [scanAuthEntries]
              rw [if_neg ha1, if_neg ha2]
              simp [hj0]

/-- The scanned stub index points at an entry matching Player 1. -/
theorem scan_fst_eq_some (p1 p2 : String) (l : List AuthEntry) (j : Nat)
    (h : (scanAuthEntries p1 p2 l).1 = some j) :
    ∃ hj : j < l.length, hasAddr p1 (l[j]) = true := by
  induction l generalizing j with
  | nil => simp [scanAuthEntries] at h
  | cons e rest ih =>
      obtain ⟨ec, es⟩ := e
      cases ec with
      | sourceAccount =>
          simp only [scanAuthEntries] at h
          cases hacc : (scanAuthEntries p1 p2 rest).1 with
          | none => rw [hacc] at h; simp at h
          | some j0 =>
              rw [hacc] at h
              simp at h
              subst h
              obtain ⟨hlt, hp⟩ := ih j0 hacc
              exact ⟨by simp only [List.length_cons]; omega, by simpa using hp⟩
      | address a =>
          simp only [scanAuthEntries] at h
          by_cases ha1 : a = p1
          · rw [if_pos ha1] at h
            cases hacc : (scanAuthEntries p1 p2 rest).1 with
            | none =>
                rw [hacc] at h
                simp at h
                subst h
                refine ⟨by simp, ?_⟩
                simp [hasAddr, ha1]
            | some j0 =>
                rw [hacc] at h
                simp at h
                subst h
                obtain ⟨hlt, hp⟩ := ih j0 hacc
                exact ⟨by simp only [List.length_cons]; omega, by simpa using hp⟩
          · have hstep : ((scanAuthEntries p1 p2 rest).1.map (· + 1)) = some j := by
              by_cases ha2 : a = p2
              · rw [if_neg ha1, if_pos ha2] at h
                exact h
              · rw [if_neg ha1, if_neg ha2] at h
                exact h
            cases hacc : (scanAuthEntries p1 p2 rest).1 with
            | none => rw [hacc] at hstep; simp at hstep
            | some j0 =>
                rw [hacc] at hstep
                simp at hstep
                subst hstep
                obtain ⟨hlt, hp⟩ := ih j0 hacc
                exact ⟨by simp only [List.length_cons]; omega, by simpa using hp⟩

/-- When no entry matches Player 2, the scan captures no Player 2 entry. -/
theorem scan_snd_eq_none (p1 p2 : String) (l : List AuthEntry)
    (h : l.countP (hasAddr p2) = 0) : (scanAuthEntries p1 p2 l).2 = none := by
  induction l with
  | nil => rfl
  | cons e rest ih =>
      rw [List.countP_cons] at h
      have he : hasAddr p2 e = false := by
        by_cases hb : hasAddr p2 e = true
        · simp [hb] at h
        · simpa using hb
      have hr : rest.countP (hasAddr p2) = 0 := by
        simpa [he] using h
      obtain ⟨ec, es⟩ := e
      cases ec with
      | sourceAccount =>
          simp only [scanAuthEntries]
          simp [ih hr]
      | address a =>
          have ha2 : ¬ a = p2 := by
            simpa [hasAddr] using he
          simp only [scanAuthEntries]
          by_cases ha1 : a = p1
          · rw [if_pos ha1]
            simp [ih hr]
          · rw [if_neg ha1, if_neg ha2]
            simp [ih hr]

/-- When some entry matches Player 2 and the two players differ, the scan
captures a Player 2 entry. -/
theorem scan_snd_some_exists (p1 p2 : String) (hne : p1 ≠ p2)
    (l : List AuthEntry) (h : l.countP (hasAddr p2) ≠ 0) :
    ∃ ke, (scanAuthEntries p1 p2 l).2 = some ke := by
  induction l with
  | nil => simp [List.countP_nil] at h
  | cons e rest ih =>
      rw [List.countP_cons] at h
      obtain ⟨ec, es⟩ := e
      cases ec with
      | sourceAccount =>
          have he : hasAddr p2 ⟨Credentials.sourceAccount, es⟩ = false := by
            simp [hasAddr]
          simp only [he, if_neg Bool.false_ne_true, Nat.add_zero] at h
          obtain ⟨⟨k0, e0⟩, hk0⟩ := ih h
          exact ⟨(k0 + 1, e0), by simp only [scanAuthEntries]; simp [hk0]⟩
      | address a =>
          by_cases ha2 : a = p2
          · have ha1 : ¬ a = p1 := by
              intro hap
              rw [← hap, ha2] at hne
              exact hne rfl
            cases hacc : (scanAuthEntries p1 p2 rest).2 with
            | none =>
                refine ⟨(0, ⟨Credentials.address a, es⟩), ?_⟩
                simp only [scanAuthEntries]
                rw [if_neg ha1, if_pos ha2]
                simp [hacc]
            | some ke0 =>
                refine ⟨(ke0.1 + 1, ke0.2), ?_⟩
                simp only [scanAuthEntries]
                rw [if_neg ha1, if_pos ha2]
                simp [hacc]
          · have he : hasAddr p2 ⟨Credentials.address a, es⟩ = false := by
              simp [hasAddr, ha2]
            simp only [he, if_neg Bool.false_ne_true, Nat.add_zero] at h
            obtain ⟨⟨k0, e0⟩, hk0⟩ := ih h
            by_cases ha1 : a = p1
            · refine ⟨(k0 + 1, e0), ?_⟩
              simp only [scanAuthEntries]
              rw [if_pos ha1]
              simp [hk0]
            · refine ⟨(k0 + 1, e0), ?_⟩
              simp only [scanAuthEntries]
              rw [if_neg ha1, if_neg ha2]
              simp [hk0]

/-- The captured Player 2 pair is an in-range position holding exactly the
captured entry, which matches Player 2. -/
theorem scan_snd_eq_some (p1 p2 : String) (l : List AuthEntry) (k : Nat)
    (e2 : AuthEntry) (h : (scanAuthEntries p1 p2 l).2 = some (k, e2)) :
    ∃ hk : k < l.length, l[k] = e2 ∧ hasAddr p2 e2 = true := by
  induction l generalizing k e2 with
  | nil => simp [scanAuthEntries] at h
  | cons e rest ih =>
      obtain ⟨ec, es⟩ := e
      cases ec with
      | sourceAccount =>
          simp only [scanAuthEntries] at h
          cases hacc : (scanAuthEntries p1 p2 rest).2 with
          | none => rw [hacc] at h; simp at h
          | some ke0 =>
              obtain ⟨k0, e0⟩ := ke0
              rw [hacc] at h
              simp at h
              obtain ⟨hk, he⟩ := h
              subst hk
              subst he
              obtain ⟨hlt, heq, hp⟩ := ih k0 e0 hacc
              refine ⟨by simp only [List.length_cons]; omega, ?_, hp⟩
              simpa using heq
      | address a =>
          simp only [scanAuthEntries] at h
          by_cases ha1 : a = p1
          · rw [if_pos ha1] at h
            cases hacc : (scanAuthEntries p1 p2 rest).2 with
            | none => rw [hacc] at h; simp at h
            | some ke0 =>
                obtain ⟨k0, e0⟩ := ke0
                rw [hacc] at h
                simp at h
                obtain ⟨hk, he⟩ := h
                subst hk
                subst he
                obtain ⟨hlt, heq, hp⟩ := ih k0 e0 hacc
                refine ⟨by simp only [List.length_cons]; omega, ?_, hp⟩
                simpa using heq
          · by_cases ha2 : a = p2
            · rw [if_neg ha1, if_pos ha2] at h
              cases hacc : (scanAuthEntries p1 p2 rest).2 with
              | none =>
                  rw [hacc] at h
                  simp at h
                  obtain ⟨hk, he⟩ := h
                  subst hk
                  subst he
                  refine ⟨by simp, rfl, ?_⟩
                  simp [hasAddr, ha2]
              | some ke0 =>
                  obtain ⟨k0, e0⟩ := ke0
                  rw [hacc] at h
                  simp at h
                  obtain ⟨hk, he⟩ := h
                  subst hk
                  subst he
                  obtain ⟨hlt, heq, hp⟩ := ih k0 e0 hacc
                  refine ⟨by simp only [List.length_cons]; omega, ?_, hp⟩
                  simpa using heq
            · rw [if_neg ha1, if_neg ha2] at h
              cases hacc : (scanAuthEntries p1 p2 rest).2 with
              | none => rw [hacc] at h; simp at h
              | some ke0 =>
                  obtain ⟨k0, e0⟩ := ke0
                  rw [hacc] at h
                  simp at h
                  obtain ⟨hk, he⟩ := h
                  subst hk
                  subst he
                  obtain ⟨hlt, heq, hp⟩ := ih k0 e0 hacc
                  refine ⟨by simp only [List.length_cons]; omega, ?_, hp⟩
                  simpa using heq

/-- C6: injectSignedAuthEntry replaces exactly the simulated auth entry
whose address credentials equal Player 1's address with Player 1's
pre-signed entry, signs Player 2's address-credentialed entry when one
exists (Player 2 is otherwise the invoker/source and needs no entry
signature, and no other entry is modified), and throws the error
"Could not find Player 1 stub entry in transaction" when no entry matches
Player 1's address. -/
theorem c6_inject_auth_entry_spec (p1Addr sig p2Addr : String)
    (entries : List AuthEntry) (hne : p1Addr ≠ p2Addr) :
    ((∀ e ∈ entries, hasAddr p1Addr e = false) →
      injectSignedAuthEntry ⟨Credentials.address p1Addr, some sig⟩ p2Addr
          entries =
        Except.error "Could not find Player 1 stub entry in transaction") ∧
    (entries.countP (hasAddr p1Addr) = 1 →
      entries.countP (hasAddr p2Addr) ≤ 1 →
      injectSignedAuthEntry ⟨Credentials.address p1Addr, some sig⟩ p2Addr
          entries =
        Except.ok (entries.map (fun e =>
          if hasAddr p1Addr e then ⟨Credentials.address p1Addr, some sig⟩
          else if hasAddr p2Addr e then signEntryAs p2Addr e
          else e))) := by
  constructor
  · intro hnone
    have hc : entries.countP (hasAddr p1Addr) = 0 :=
      List.countP_eq_zero.mpr (by
        intro e he
        simp [hnone e he])
    have hs := scan_fst_eq_none p1Addr p2Addr entries hc
    simp only [injectSignedAuthEntry, credentialAddr]
    rw [hs]
  · intro h1 h2
    have h1ne : entries.countP (hasAddr p1Addr) ≠ 0 := by omega
    obtain ⟨j, hj⟩ := scan_fst_some_exists p1Addr p2Addr entries h1ne
    obtain ⟨hjlt, hjp⟩ := scan_fst_eq_some p1Addr p2Addr entries j hj
    cases hp2c : entries.countP (hasAddr p2Addr) with
    | zero =>
        have hs2 := scan_snd_eq_none p1Addr p2Addr entries hp2c
        have hred : injectSignedAuthEntry
            ⟨Credentials.address p1Addr, some sig⟩ p2Addr entries =
            Except.ok (entries.set j
              ⟨Credentials.address p1Addr, some sig⟩) := by
          simp only [injectSignedAuthEntry, credentialAddr, hj, hs2]
        rw [hred]
        congr 1
        apply List.ext_getElem
        · simp
        · intro i hi1 hi2
          rw [List.getElem_set, List.getElem_map]
          by_cases hij : j = i
          · subst hij
            rw [if_pos rfl, if_pos hjp]
          · rw [if_neg hij]
            have hilt : i < entries.length := by
              simpa using hi2
            have hpi1 : hasAddr p1Addr entries[i] = false := by
              cases hb : hasAddr p1Addr entries[i] with
              | false => rfl
              | true =>
                  exfalso
                  exact hij (countP_le_one_unique (hasAddr p1Addr) entries
                    (by omega) i j hilt hjlt hb hjp).symm
            have hpi2 : hasAddr p2Addr entries[i] = false := by
              cases hb : hasAddr p2Addr entries[i] with
              | false => rfl
              | true =>
                  exfalso
                  have := List.countP_pos_iff.mpr
                    ⟨entries[i], List.getElem_mem hilt, hb⟩
                  omega
            rw [if_neg (by simp [hpi1]), if_neg (by simp [hpi2])]
    | succ n =>
        have h2ne : entries.countP (hasAddr p2Addr) ≠ 0 := by omega
        obtain ⟨ke, hke⟩ := scan_snd_some_exists p1Addr p2Addr hne entries h2ne
        obtain ⟨k, e2⟩ := ke
        obtain ⟨hklt, hkeq, hkp⟩ :=
          scan_snd_eq_some p1Addr p2Addr entries k e2 hke
        have hred : injectSignedAuthEntry
            ⟨Credentials.address p1Addr, some sig⟩ p2Addr entries =
            Except.ok ((entries.set j
              ⟨Credentials.address p1Addr, some sig⟩).set k
                (signEntryAs p2Addr e2)) := by
          simp only [injectSignedAuthEntry, credentialAddr, hj, hke]
        rw [hred]
        congr 1
        apply List.ext_getElem
        · simp
        · intro i hi1 hi2
          rw [List.getElem_set, List.getElem_set, List.getElem_map]
          have hilt : i < entries.length := by
            simpa using hi2
          by_cases hik : k = i
          · subst hik
            rw [if_pos rfl, hkeq]
            have hp1f : hasAddr p1Addr e2 = false :=
              hasAddr_of_other p1Addr e2 p2Addr hkp hne
            rw [if_neg (by simp [hp1f]), if_pos hkp]
          · rw [if_neg hik]
            by_cases hij : j = i
            · subst hij
              rw [if_pos rfl, if_pos hjp]
            · rw [if_neg hij]
              have hpi1 : hasAddr p1Addr entries[i] = false := by
                cases hb : hasAddr p1Addr entries[i] with
                | false => rfl
                | true =>
                    exfalso
                    exact hij (countP_le_one_unique (hasAddr p1Addr) entries
                      (by omega) i j hilt hjlt hb hjp).symm
              have hpi2 : hasAddr p2Addr entries[i] = false := by
                cases hb : hasAddr p2Addr entries[i] with
                | false => rfl
                | true =>
                    exfalso
                    have hkb : hasAddr p2Addr entries[k] = true := by
                      rw [hkeq]
                      exact hkp
                    exact hik (countP_le_one_unique (hasAddr p2Addr) entries
                      h2 i k hilt hklt hb hkb).symm
              rw [if_neg (by simp [hpi1]), if_neg (by simp [hpi2])]

/-- Witness for C6 at a concrete three-entry simulation: the source-account
entry is untouched, Player 1's stub is replaced by the pre-signed entry,
and Player 2's entry is signed. -/
theorem c6_inject_auth_entry_spec_witness :
    injectSignedAuthEntry ⟨Credentials.address "GP1", some "SIG1"⟩ "GP2"
        [⟨Credentials.sourceAccount, none⟩,
          ⟨Credentials.address "GP1", none⟩,
          ⟨Credentials.address "GP2", none⟩] =
      Except.ok [⟨Credentials.sourceAccount, none⟩,
        ⟨Credentials.address "GP1", some "SIG1"⟩,
        ⟨Credentials.address "GP2", some "GP2"⟩] := by
  have r := (c6_inject_auth_entry_spec "GP1" "SIG1" "GP2"
    [⟨Credentials.sourceAccount, none⟩,
      ⟨Credentials.address "GP1", none⟩,
      ⟨Credentials.address "GP2", none⟩] (by decide)).2 (by decide) (by decide)
  rw [r]
  rfl

end Ruleta
